import Mathlib

/-!
Verification of the athyr-agent message pipeline against its specification.

Shallow embedding of the relevant Go code:
- `internal/plugin` — Lua sandbox restriction checking (`Sandbox.IsRestricted`),
  Lua/Go value marshalling (`luaValueToGo` / `goValueToLua`), plugin manager
  (`Manager.LoadPlugin`, `Manager.HasPlugin`).
- `internal/runner/handler.go` — message parsing (`parseMessage`), session
  resolution (`ensureSession`), the bounded tool-calling loop in
  `MessageHandler.Handle`, routing extraction (`extractRouteFrom`,
  `extractJSONFromMarkdown`), and result dispatch.
- `internal/config` — `TopicsConfig` route validation.

Go strings are modelled as `String` (or `List Char` where character-level
induction is needed); Go maps become association lists; fallible external
effects (LLM completion, tool execution, session creation, sandbox and
script loading) become explicit `Except`/`Option`-valued parameters.
-/

/-! ### Capability restriction (`Sandbox.IsRestricted`, src/unnamed/part_011) -/

/-- A Go string at character granularity. -/
abbrev Chars := List Char

/-- Embeds `Sandbox.IsRestricted`: an API path is blocked when the restriction
list contains it verbatim, or contains a dot-free entry `r` such that the
path starts with `r` followed by a dot.  A nil and an empty Go slice both
have length 0, so both are the empty list here. -/
def isRestricted (restrict : List Chars) (api : Chars) : Bool :=
  if restrict.length == 0 then false
  else restrict.any fun r =>
    r == api || (!(r.contains '.') && (r ++ ['.']).isPrefixOf api)

/-- The module part of a capability path: the characters before the first dot
(the whole path when it has no dot). -/
def moduleOf (p : Chars) : Chars :=
  p.takeWhile (fun c => c != '.')

theorem moduleOf_no_dot (p : Chars) : '.' ∉ moduleOf p := by
  intro h
  have := List.mem_takeWhile_imp h
  simp at this

theorem moduleOf_cons_ne (c : Char) (t : Chars) (hc : (c != '.') = true) :
    moduleOf (c :: t) = c :: moduleOf t := by
  unfold moduleOf
  rw [List.takeWhile_cons, if_pos hc]

theorem moduleOf_cons_dot (t : Chars) : moduleOf ('.' :: t) = [] := by
  unfold moduleOf
  rw [List.takeWhile_cons]
  simp

theorem moduleOf_of_no_dot (p : Chars) (h : '.' ∉ p) : moduleOf p = p := by
  induction p with
  | nil => rfl
  | cons c t ih =>
    simp only [List.mem_cons, not_or] at h
    obtain ⟨h1, h2⟩ := h
    have hc : (c != '.') = true := by
      simp only [bne_iff_ne, ne_eq]
      intro hcc
      exact h1 hcc.symm
    rw [moduleOf_cons_ne c t hc, ih h2]

theorem bare_entry_is_module (r : Chars) :
    ∀ p : Chars, '.' ∉ r → (r ++ ['.']) <+: p → moduleOf p = r := by
  induction r with
  | nil =>
    intro p _ hpre
    obtain ⟨t, ht⟩ := hpre
    rw [List.nil_append] at ht
    rw [← ht]
    exact moduleOf_cons_dot t
  | cons c r ih =>
    intro p hbare hpre
    simp only [List.mem_cons, not_or] at hbare
    obtain ⟨h1, h2⟩ := hbare
    cases p with
    | nil =>
      rw [List.cons_append, List.prefix_nil] at hpre
      exact absurd hpre (by simp)
    | cons d t =>
      rw [List.cons_append, List.cons_prefix_cons] at hpre
      obtain ⟨rfl, hrest⟩ := hpre
      have hc : (c != '.') = true := by
        simp only [bne_iff_ne, ne_eq]
        intro hcc
        exact h1 hcc.symm
      rw [moduleOf_cons_ne c t hc, ih t h2 hrest]

theorem module_append_dot (p : Chars) (h : '.' ∈ p) :
    (moduleOf p ++ ['.']) <+: p := by
  induction p with
  | nil => simp at h
  | cons c t ih =>
    by_cases hc : c = '.'
    · subst hc
      rw [moduleOf_cons_dot, List.nil_append]
      exact ⟨t, rfl⟩
    · have hcb : (c != '.') = true := by simpa using hc
      have ht : '.' ∈ t := by
        rcases List.mem_cons.mp h with h | h
        · exact absurd h.symm hc
        · exact h
      rw [moduleOf_cons_ne c t hcb, List.cons_append, List.cons_prefix_cons]
      exact ⟨rfl, ih ht⟩

/-- C2: `IsRestricted(P)` returns true iff the restriction list contains `P`
verbatim, or contains `P`'s module part (a dot-free entry by construction);
and with an empty (or nil) restriction list nothing is restricted. -/
theorem isRestricted_iff_spec (R : List Chars) (P : Chars) :
    (isRestricted R P = true ↔ (P ∈ R ∨ moduleOf P ∈ R)) ∧
      isRestricted [] P = false := by
  refine ⟨⟨?_, ?_⟩, rfl⟩
  · intro h
    unfold isRestricted at h
    by_cases hR : R.length = 0
    · simp [hR] at h
    · rw [if_neg (by simpa using hR), List.any_eq_true] at h
      obtain ⟨r, hr, hcond⟩ := h
      simp only [Bool.or_eq_true, beq_iff_eq, Bool.and_eq_true,
        Bool.not_eq_true', List.isPrefixOf_iff_prefix] at hcond
      rcases hcond with rfl | ⟨hbare, hpre⟩
      · exact Or.inl hr
      · right
        have hnd : '.' ∉ r := by
          intro hmem
          rw [List.contains, List.elem_eq_mem, decide_eq_false_iff_not] at hbare
          exact hbare hmem
        rw [bare_entry_is_module r P hnd hpre]
        exact hr
  · intro h
    have hmem : ∃ r ∈ R, (r == P || (!(r.contains '.') && (r ++ ['.']).isPrefixOf P)) = true := by
      rcases h with h | h
      · exact ⟨P, h, by simp⟩
      · refine ⟨moduleOf P, h, ?_⟩
        by_cases hdot : '.' ∈ P
        · simp only [Bool.or_eq_true, Bool.and_eq_true, Bool.not_eq_true',
            List.isPrefixOf_iff_prefix]
          right
          constructor
          · rw [List.contains, List.elem_eq_mem, decide_eq_false_iff_not]
            exact moduleOf_no_dot P
          · exact module_append_dot P hdot
        · rw [moduleOf_of_no_dot P hdot]
          simp
    have hne : R.length ≠ 0 := by
      intro h0
      rw [List.length_eq_zero] at h0
      subst h0
      rcases h with h | h <;> simp at h
    unfold isRestricted
    rw [if_neg (by simpa using hne), List.any_eq_true]
    exact hmem

/-! ### Lua/Go value marshalling (`luaValueToGo` / `goValueToLua`, src/unnamed/part_010)

A Go value decoded from JSON (`json.Unmarshal` into `any`): nil, bool,
float64, string, `[]any`, or `map[string]any`.  The numeric payload is
opaque to the conversions (a float64 passed through unchanged), so it is a
type parameter.  Maps are modelled as association lists. -/

inductive GoVal (A : Type) where
  | vnull : GoVal A
  | vbool (b : Bool) : GoVal A
  | vnum (x : A) : GoVal A
  | vstr (s : String) : GoVal A
  | varr (xs : List (GoVal A)) : GoVal A
  | vobj (kvs : List (String × GoVal A)) : GoVal A

/-- A gopher-lua value as the bridge sees it: nil, bool, number, string, or a
table.  A table built by the bridge has an integer-indexed array part
(consecutive keys 1..n, so `MaxN` is its length) and a string-keyed hash
part. -/
inductive LuaVal (A : Type) where
  | lnil : LuaVal A
  | lbool (b : Bool) : LuaVal A
  | lnum (x : A) : LuaVal A
  | lstr (s : String) : LuaVal A
  | ltable (arr : List (LuaVal A)) (hash : List (String × LuaVal A)) : LuaVal A

mutual

/-- Embeds `goValueToLua`: scalars map directly; a `[]any` becomes a table
built with `Append` (array part); a `map[string]any` becomes a table built
with `SetField` (hash part). -/
def goValueToLua {A : Type} : GoVal A → LuaVal A
  | GoVal.vnull => LuaVal.lnil
  | GoVal.vbool b => LuaVal.lbool b
  | GoVal.vnum x => LuaVal.lnum x
  | GoVal.vstr s => LuaVal.lstr s
  | GoVal.varr xs => LuaVal.ltable (goListToLua xs) []
  | GoVal.vobj kvs => LuaVal.ltable [] (goPairsToLua kvs)

/-- The `for _, item := range v` loop of the `[]any` case. -/
def goListToLua {A : Type} : List (GoVal A) → List (LuaVal A)
  | [] => []
  | x :: xs => goValueToLua x :: goListToLua xs

/-- The `for k, item := range v` loop of the `map[string]any` case. -/
def goPairsToLua {A : Type} : List (String × GoVal A) → List (String × LuaVal A)
  | [] => []
  | (k, v) :: rest => (k, goValueToLua v) :: goPairsToLua rest

end

mutual

/-- Embeds `luaValueToGo`: a table whose `MaxN` is positive is read as an
array from its integer keys 1..MaxN; otherwise it is read as a map from its
string keys.  (Function/userdata values, which fall into the Go default
branch, do not occur on the bridge's JSON path and are not modelled.) -/
def luaValueToGo {A : Type} : LuaVal A → GoVal A
  | LuaVal.lnil => GoVal.vnull
  | LuaVal.lbool b => GoVal.vbool b
  | LuaVal.lnum x => GoVal.vnum x
  | LuaVal.lstr s => GoVal.vstr s
  | LuaVal.ltable arr hash =>
    if arr.length > 0 then GoVal.varr (luaListToGo arr)
    else GoVal.vobj (luaPairsToGo hash)

/-- The `for i := 1; i <= maxN; i++` loop of the array case. -/
def luaListToGo {A : Type} : List (LuaVal A) → List (GoVal A)
  | [] => []
  | x :: xs => luaValueToGo x :: luaListToGo xs

/-- The `ForEach` loop of the map case (string keys only). -/
def luaPairsToGo {A : Type} : List (String × LuaVal A) → List (String × GoVal A)
  | [] => []
  | (k, v) :: rest => (k, luaValueToGo v) :: luaPairsToGo rest

end

/-- C6 counterexample: the empty array does not survive the bridge round
trip.  `json.Unmarshal "[]"` yields an empty `[]any`; `goValueToLua` makes an
empty table; `luaValueToGo` sees `MaxN = 0` and reads it back as an empty
`map[string]any`, which `json.Marshal` renders as an empty object — not
structurally equal to the empty array. -/
theorem json_roundtrip_counterexample :
    luaValueToGo (goValueToLua (GoVal.varr ([] : List (GoVal Unit)))) =
      GoVal.vobj [] ∧
      GoVal.vobj ([] : List (String × GoVal Unit)) ≠ GoVal.varr [] := by
  constructor
  · simp [goValueToLua, goListToLua, luaValueToGo, luaPairsToGo]
  · intro h
    exact GoVal.noConfusion h

/-- The values of the claim's grammar on which the round trip does hold:
booleans, numbers, strings, nonempty arrays and string-keyed maps (no JSON
null, which the claim's grammar excludes anyway). -/
inductive GoodVal {A : Type} : GoVal A → Prop where
  | vbool (b : Bool) : GoodVal (GoVal.vbool b)
  | vnum (x : A) : GoodVal (GoVal.vnum x)
  | vstr (s : String) : GoodVal (GoVal.vstr s)
  | varr (xs : List (GoVal A)) (hne : xs ≠ [])
      (h : ∀ x ∈ xs, GoodVal x) : GoodVal (GoVal.varr xs)
  | vobj (kvs : List (String × GoVal A))
      (h : ∀ kv ∈ kvs, GoodVal kv.2) : GoodVal (GoVal.vobj kvs)

theorem goListToLua_length {A : Type} (xs : List (GoVal A)) :
    (goListToLua xs).length = xs.length := by
  induction xs with
  | nil => simp [goListToLua]
  | cons x xs ih => simp [goListToLua, ih]

/-- C6 (amended): for every value built of booleans, numbers, strings,
nonempty arrays and string-keyed maps, the Lua bridge round trip
`luaValueToGo (goValueToLua v)` is structurally equal to `v`, so the json
module's `encode(decode(x))` preserves such values. -/
theorem json_roundtrip_good {A : Type} (v : GoVal A) (h : GoodVal v) :
    luaValueToGo (goValueToLua v) = v := by
  induction h with
  | vbool b => rfl
  | vnum x => rfl
  | vstr s => rfl
  | varr xs hne hall ih =>
    have hlen : (goListToLua xs).length > 0 := by
      rw [goListToLua_length]
      exact List.length_pos.mpr hne
    rw [goValueToLua]
    rw [luaValueToGo, if_pos hlen]
    have : luaListToGo (goListToLua xs) = xs := by
      clear hne hlen hall
      induction xs with
      | nil => rfl
      | cons x xs ihl =>
        rw [goListToLua, luaListToGo, ihl fun y hy => ih y (List.mem_cons_of_mem x hy),
          ih x (List.mem_cons_self x xs)]
    rw [this]
  | vobj kvs hall ih =>
    rw [goValueToLua]
    rw [luaValueToGo, if_neg (by simp)]
    have : luaPairsToGo (goPairsToLua kvs) = kvs := by
      clear hall
      induction kvs with
      | nil => rfl
      | cons kv rest ihl =>
        obtain ⟨k, v⟩ := kv
        rw [goPairsToLua, luaPairsToGo,
          ihl fun y hy => ih y (List.mem_cons_of_mem (k, v) hy),
          ih (k, v) (List.mem_cons_self (k, v) rest)]
    rw [this]

/-- Witness for the amended C6 theorem at a concrete nested value. -/
theorem json_roundtrip_good_witness :
    luaValueToGo (goValueToLua (GoVal.varr
        [GoVal.vbool true,
         GoVal.vobj [("k", GoVal.vnum (5 : Int)), ("s", GoVal.vstr "x")],
         GoVal.varr [GoVal.vstr "y"]])) =
      GoVal.varr
        [GoVal.vbool true,
         GoVal.vobj [("k", GoVal.vnum (5 : Int)), ("s", GoVal.vstr "x")],
         GoVal.varr [GoVal.vstr "y"]] := by
  apply json_roundtrip_good
  refine GoodVal.varr _ (by simp) ?_
  intro x hx
  simp only [List.mem_cons, List.mem_singleton] at hx
  rcases hx with rfl | rfl | rfl | hx
  · exact GoodVal.vbool true
  · refine GoodVal.vobj _ ?_
    intro kv hkv
    simp only [List.mem_cons, List.mem_singleton] at hkv
    rcases hkv with rfl | rfl | hkv
    · exact GoodVal.vnum 5
    · exact GoodVal.vstr "x"
    · simp at hkv
  · refine GoodVal.varr _ (by simp) ?_
    intro y hy
    simp only [List.mem_singleton] at hy
    subst hy
    exact GoodVal.vstr "y"
  · simp at hx

/-! ### JSON parsing (models Go `encoding/json` as consumed by the handler)

`parseMessage` and `extractRouteFrom` call `json.Unmarshal` on small payloads.
`encoding/json` is an external collaborator of the repository; it is modelled
here by an executable recursive-descent parser over `List Char`, returning
the same `GoVal` shape `Unmarshal` produces (numbers kept as their literal
text, since none of the checked claims inspects a numeric payload). -/

/-- A parsed JSON value; the numeric payload is the source literal. -/
abbrev JVal := GoVal String

/-- The whitespace characters of the JSON grammar (RFC 8259), which is what
Go's scanner skips between tokens. -/
def jsonWs (c : Char) : Bool :=
  c == ' ' || c == '\t' || c == '\n' || c == '\r'

def skipWs (s : Chars) : Chars := s.dropWhile jsonWs

def hexVal (c : Char) : Option Nat :=
  if '0' ≤ c && c ≤ '9' then some (c.toNat - 48)
  else if 'a' ≤ c && c ≤ 'f' then some (c.toNat - 87)
  else if 'A' ≤ c && c ≤ 'F' then some (c.toNat - 55)
  else none

def escChar (e : Char) : Option Char :=
  if e == '"' then some '"'
  else if e == '\\' then some '\\'
  else if e == '/' then some '/'
  else if e == 'b' then some (Char.ofNat 8)
  else if e == 'f' then some (Char.ofNat 12)
  else if e == 'n' then some '\n'
  else if e == 'r' then some '\r'
  else if e == 't' then some '\t'
  else none

/-- Reads the characters of a JSON string after its opening quote, handling
the standard escapes; returns the contents and the rest of the input. -/
def parseStrChars : Chars → Option (Chars × Chars)
  | [] => none
  | c :: rest =>
    if c == '"' then some ([], rest)
    else if c == '\\' then
      match rest with
      | [] => none
      | e :: rest2 =>
        if e == 'u' then
          match rest2 with
          | h1 :: h2 :: h3 :: h4 :: rest3 =>
            match hexVal h1, hexVal h2, hexVal h3, hexVal h4 with
            | some a, some b, some c3, some d =>
              match parseStrChars rest3 with
              | some (cs, r) =>
                some (Char.ofNat (((a * 16 + b) * 16 + c3) * 16 + d) :: cs, r)
              | none => none
            | _, _, _, _ => none
          | _ => none
        else
          match escChar e with
          | some ec =>
            match parseStrChars rest2 with
            | some (cs, r) => some (ec :: cs, r)
            | none => none
          | none => none
    else
      match parseStrChars rest with
      | some (cs, r) => some (c :: cs, r)
      | none => none

/-- Reads a JSON number literal (sign, integer part without leading zeros,
optional fraction and exponent); returns the literal and the rest. -/
def parseNumber (s : Chars) : Option (Chars × Chars) :=
  let (neg, s1) := match s with
    | '-' :: r => (['-'], r)
    | _ => (([] : Chars), s)
  match s1 with
  | [] => none
  | c :: t =>
    if !c.isDigit then none
    else
      let (ip, s2) :=
        if c == '0' then ([c], t)
        else (s1.takeWhile Char.isDigit, s1.dropWhile Char.isDigit)
      -- a digit directly after a leading zero is rejected ("01")
      if c == '0' && (match s2 with | d :: _ => d.isDigit | [] => false) then none
      else
        let (fp, s3) := match s2 with
          | '.' :: r =>
            let ds := r.takeWhile Char.isDigit
            if ds.isEmpty then (none, s2) else (some ('.' :: ds), r.dropWhile Char.isDigit)
          | _ => (none, s2)
        match fp, s2 with
        | none, '.' :: _ => none
        | _, _ =>
          let (ep, s4) := match s3 with
            | e :: r =>
              if e == 'e' || e == 'E' then
                let (sgn, r2) := match r with
                  | '+' :: rr => (['+'], rr)
                  | '-' :: rr => (['-'], rr)
                  | _ => (([] : Chars), r)
                let ds := r2.takeWhile Char.isDigit
                if ds.isEmpty then (none, s3)
                else (some (e :: (sgn ++ ds)), r2.dropWhile Char.isDigit)
              else (none, s3)
            | [] => (none, s3)
          match ep, s3 with
          | none, e :: _ =>
            if e == 'e' || e == 'E' then none
            else some (neg ++ ip ++ fp.getD [] , s3)
          | _, _ => some (neg ++ ip ++ fp.getD [] ++ ep.getD [], s4)

/-- The three states of the recursive-descent parse: a value, the element
loop of an array, the member loop of an object. -/
inductive PTask where
  | val (s : Chars) : PTask
  | elems (s : Chars) (acc : List JVal) : PTask
  | members (s : Chars) (acc : List (String × JVal)) : PTask

/-- One fuelled parser for JSON values; fuel strictly decreases on every
recursive call, so the definition is structural on `Nat` and evaluates by
kernel reduction. -/
def parseStep : Nat → PTask → Option (JVal × Chars)
  | 0, _ => none
  | Nat.succ fuel, PTask.val s =>
    match skipWs s with
    | 'n' :: 'u' :: 'l' :: 'l' :: rest => some (GoVal.vnull, rest)
    | 't' :: 'r' :: 'u' :: 'e' :: rest => some (GoVal.vbool true, rest)
    | 'f' :: 'a' :: 'l' :: 's' :: 'e' :: rest => some (GoVal.vbool false, rest)
    | '"' :: rest =>
      match parseStrChars rest with
      | some (cs, rest2) => some (GoVal.vstr (String.mk cs), rest2)
      | none => none
    | '[' :: rest =>
      (match skipWs rest with
       | ']' :: rest2 => some (GoVal.varr [], rest2)
       | rest2 => parseStep fuel (PTask.elems rest2 []))
    | '{' :: rest =>
      (match skipWs rest with
       | '}' :: rest2 => some (GoVal.vobj [], rest2)
       | rest2 => parseStep fuel (PTask.members rest2 []))
    | other =>
      match parseNumber other with
      | some (lit, rest) => some (GoVal.vnum (String.mk lit), rest)
      | none => none
  | Nat.succ fuel, PTask.elems s acc =>
    match parseStep fuel (PTask.val s) with
    | some (v, rest) =>
      (match skipWs rest with
       | ',' :: rest2 => parseStep fuel (PTask.elems rest2 (acc ++ [v]))
       | ']' :: rest2 => some (GoVal.varr (acc ++ [v]), rest2)
       | _ => none)
    | none => none
  | Nat.succ fuel, PTask.members s acc =>
    match skipWs s with
    | '"' :: rest =>
      (match parseStrChars rest with
       | some (kcs, rest2) =>
         (match skipWs rest2 with
          | ':' :: rest3 =>
            (match parseStep fuel (PTask.val rest3) with
             | some (v, rest4) =>
               (match skipWs rest4 with
                | ',' :: rest5 =>
                  parseStep fuel (PTask.members rest5 (acc ++ [(String.mk kcs, v)]))
                | '}' :: rest5 =>
                  some (GoVal.vobj (acc ++ [(String.mk kcs, v)]), rest5)
                | _ => none)
             | none => none)
          | _ => none)
       | none => none)
    | _ => none

/-- Models `json.Unmarshal` producing a value: parse one JSON value and
require only trailing whitespace after it (Go errors on trailing data). -/
def jsonParse (s : String) : Option JVal :=
  let cs := s.toList
  match parseStep (2 * cs.length + 4) (PTask.val cs) with
  | some (v, rest) => if (skipWs rest).isEmpty then some v else none
  | none => none

/-- ASCII lower-casing, the relevant fragment of Go's case folding for JSON
struct field matching (the handler's field names are ASCII). -/
def asciiLower (c : Char) : Char :=
  if 'A' ≤ c && c ≤ 'Z' then Char.ofNat (c.toNat + 32) else c

/-- Go matches JSON object keys to struct fields case-insensitively. -/
def eqFold (a b : String) : Bool :=
  a.toList.map asciiLower == b.toList.map asciiLower

/-- Decodes one string-typed struct field from an object's members, the way
`json.Unmarshal` does: keys are matched case-insensitively, a later
occurrence overwrites an earlier one, a JSON null leaves the field
unchanged, and a non-string value for a matched key is an error (`none`). -/
def decodeStringField : List (String × JVal) → String → String → Option String
  | [], _, cur => some cur
  | (k, v) :: rest, field, cur =>
    if eqFold k field then
      match v with
      | GoVal.vstr s => decodeStringField rest field s
      | GoVal.vnull => decodeStringField rest field cur
      | _ => none
    else decodeStringField rest field cur

/-- `json.Unmarshal` of a payload into `IncomingMessage{session_id, content}`:
the top level must be an object (or null, which leaves the zero value); the
result is `(SessionID, Content)`, or `none` on any unmarshal error. -/
def unmarshalIncoming (s : String) : Option (String × String) :=
  match jsonParse s with
  | some (GoVal.vobj kvs) =>
    match decodeStringField kvs "session_id" "", decodeStringField kvs "content" "" with
    | some sid, some content => some (sid, content)
    | _, _ => none
  | some GoVal.vnull => some ("", "")
  | _ => none

/-- Embeds `parseMessage` (handler.go): if the data unmarshals and has a
nonempty `content`, return `(SessionID, Content)`; otherwise the whole
payload is literal text with no session key. -/
def parseMessage (data : String) : String × String :=
  match unmarshalIncoming data with
  | some (sid, content) => if content != "" then (sid, content) else ("", data)
  | none => ("", data)

/-- `json.Unmarshal` of a completion's text into `routeResponse{route_to}`:
`none` is an unmarshal error, otherwise the decoded `RouteTo` field. -/
def unmarshalRoute (s : String) : Option String :=
  match jsonParse s with
  | some (GoVal.vobj kvs) => decodeStringField kvs "route_to" ""
  | some GoVal.vnull => some ""
  | _ => none

/-- The characters Go's `strings.TrimSpace` removes (ASCII fragment). -/
def goSpace (c : Char) : Bool :=
  c == ' ' || c == '\t' || c == '\n' || c == '\r' ||
    c == Char.ofNat 11 || c == Char.ofNat 12

def trimSpaceChars (s : Chars) : Chars :=
  ((s.dropWhile goSpace).reverse.dropWhile goSpace).reverse

/-- `strings.LastIndex`: the last position (in characters) at which the
pattern occurs, if any. -/
def lastIndexOf (pat s : Chars) : Option Nat :=
  ((List.range (s.length + 1)).filter (fun i => pat.isPrefixOf (s.drop i))).getLast?

/-- Embeds `extractJSONFromMarkdown` (handler.go): trims the content, strips
a leading ` ```json ` or ` ``` ` fence and everything from the last ` ``` `
on, and trims again; without a fence the content is returned unchanged. -/
def extractJSONFromMarkdown (content : String) : String :=
  let cs := trimSpaceChars content.toList
  if ("```json".toList).isPrefixOf cs then
    let cs2 := cs.drop ("```json".toList.length)
    let cs3 := match lastIndexOf ("```".toList) cs2 with
      | some idx => cs2.take idx
      | none => cs2
    String.mk (trimSpaceChars cs3)
  else if ("```".toList).isPrefixOf cs then
    let cs2 := cs.drop 3
    let cs3 := match lastIndexOf ("```".toList) cs2 with
      | some idx => cs2.take idx
      | none => cs2
    String.mk (trimSpaceChars cs3)
  else String.mk cs

/-- Embeds `extractRouteFrom` (handler.go): unwrap a possible code fence,
unmarshal `route_to`; empty string when absent or not valid JSON. -/
def extractRouteFrom (content : String) : String :=
  match unmarshalRoute (extractJSONFromMarkdown content) with
  | some r => r
  | none => ""

/-! ### Routing configuration (`TopicsConfig`, internal/config/config.go) -/

structure RouteConfig where
  topic : String
  description : String

structure TopicsConfig where
  subscribe : List String := []
  publish : List String := []
  routes : List RouteConfig := []

/-- Embeds `TopicsConfig.IsValidRoute`: linear scan for an equal route topic. -/
def TopicsConfig.isValidRoute (t : TopicsConfig) (topic : String) : Bool :=
  t.routes.any (fun r => r.topic == topic)

/-- The routing decision of `MessageHandler.Handle` (lines 277–289): keep the
extracted `route_to` only when nonempty and configured, otherwise reset it to
empty (the invalid value is logged and ignored). -/
def routeDecision (t : TopicsConfig) (content : String) : String :=
  let routeTo := extractRouteFrom content
  if routeTo != "" && t.isValidRoute routeTo then routeTo else ""

/-- The target-topic selection of `MessageHandler.Handle` (lines 306–314):
a kept route is the sole destination, otherwise the configured publish set. -/
def targetTopics (t : TopicsConfig) (content : String) : List String :=
  let routeTo := routeDecision t content
  if routeTo != "" then [routeTo] else t.publish

/-- C4: a final text whose extracted `route_to` is not a configured route
yields exactly the default publish set — the same destinations as a final
text from which no route is extracted at all. -/
theorem route_unrecognized_default (t : TopicsConfig) (c1 c2 : String)
    (h1 : t.isValidRoute (extractRouteFrom c1) = false)
    (h2 : extractRouteFrom c2 = "") :
    targetTopics t c1 = t.publish ∧ targetTopics t c1 = targetTopics t c2 := by
  have hd1 : routeDecision t c1 = "" := by
    unfold routeDecision
    simp [h1]
  have hd2 : routeDecision t c2 = "" := by
    unfold routeDecision
    simp [h2]
  constructor
  · unfold targetTopics
    rw [hd1]
    simp
  · unfold targetTopics
    rw [hd1, hd2]

/-- Witness for C4: `route_to = "unknown"` against a configuration whose only
route is `billing` dispatches to the default publish set, exactly as plain
text does. -/
theorem route_unrecognized_default_witness :
    targetTopics ⟨["in"], ["out1", "out2"], [⟨"billing", "b"⟩]⟩
        "\x7b\"route_to\":\"unknown\",\"content\":\"x\"\x7d" = ["out1", "out2"] ∧
      targetTopics ⟨["in"], ["out1", "out2"], [⟨"billing", "b"⟩]⟩
          "\x7b\"route_to\":\"unknown\",\"content\":\"x\"\x7d" =
        targetTopics ⟨["in"], ["out1", "out2"], [⟨"billing", "b"⟩]⟩ "plain text" :=
  route_unrecognized_default ⟨["in"], ["out1", "out2"], [⟨"billing", "b"⟩]⟩
    "\x7b\"route_to\":\"unknown\",\"content\":\"x\"\x7d" "plain text"
    (by decide) (by decide)

/-- C5: a final text whose extracted `route_to` names a configured route makes
that route the sole destination; in particular no default publish topic other
than the route itself is dispatched to. -/
theorem route_valid_sole_destination (t : TopicsConfig) (content : String)
    (h1 : extractRouteFrom content ≠ "")
    (h2 : t.isValidRoute (extractRouteFrom content) = true) :
    targetTopics t content = [extractRouteFrom content] ∧
      ∀ p ∈ t.publish, p ≠ extractRouteFrom content →
        p ∉ targetTopics t content := by
  have hne : (extractRouteFrom content != "") = true := by
    simp only [bne_iff_ne, ne_eq]
    exact h1
  have hd : routeDecision t content = extractRouteFrom content := by
    unfold routeDecision
    simp [hne, h2]
  have ht : targetTopics t content = [extractRouteFrom content] := by
    unfold targetTopics
    rw [hd, if_pos (by simpa using h1)]
  refine ⟨ht, ?_⟩
  intro p _ hpne hmem
  rw [ht] at hmem
  exact hpne (List.mem_singleton.mp hmem)

/-- Witness for C5 at the claim's scenario, both as raw JSON and unwrapped
from a fenced code block: `route_to = "billing"` with `billing` configured
dispatches only to `billing`. -/
theorem route_valid_sole_destination_witness :
    (targetTopics ⟨["in"], ["out1"], [⟨"billing", "b"⟩]⟩
        "\x7b\"route_to\":\"billing\",\"content\":\"x\"\x7d" =
      [extractRouteFrom "\x7b\"route_to\":\"billing\",\"content\":\"x\"\x7d"] ∧
      ∀ p ∈ (["out1"] : List String),
        p ≠ extractRouteFrom "\x7b\"route_to\":\"billing\",\"content\":\"x\"\x7d" →
          p ∉ targetTopics ⟨["in"], ["out1"], [⟨"billing", "b"⟩]⟩
            "\x7b\"route_to\":\"billing\",\"content\":\"x\"\x7d") ∧
      targetTopics ⟨["in"], ["out1"], [⟨"billing", "b"⟩]⟩
          "```json\n\x7b\"route_to\":\"billing\",\"content\":\"x\"\x7d\n```" =
        [extractRouteFrom "```json\n\x7b\"route_to\":\"billing\",\"content\":\"x\"\x7d\n```"] :=
  ⟨route_valid_sole_destination ⟨["in"], ["out1"], [⟨"billing", "b"⟩]⟩
      "\x7b\"route_to\":\"billing\",\"content\":\"x\"\x7d" (by decide) (by decide),
    (route_valid_sole_destination ⟨["in"], ["out1"], [⟨"billing", "b"⟩]⟩
      "```json\n\x7b\"route_to\":\"billing\",\"content\":\"x\"\x7d\n```"
      (by decide) (by decide)).1⟩

/-! ### Session resolution (`MessageHandler.ensureSession`, handler.go)

`h.sessions` (user session key → server session id) is an association list;
the outcome of `agent.CreateSession` is an `Option String` parameter (`none`
is a platform failure, in which case the handler logs and returns ""). -/

/-- Embeds `ensureSession`: return an existing mapping unchanged; otherwise
create a session on the platform, store the new mapping on success, and on
failure return "" without storing anything. -/
def ensureSession (sessions : List (String × String)) (created : Option String)
    (userID : String) : String × List (String × String) :=
  match sessions.lookup userID with
  | some sid => (sid, sessions)
  | none =>
    match created with
    | none => ("", sessions)
    | some sid => (sid, sessions ++ [(userID, sid)])

/-- The session-resolution step of `MessageHandler.Handle` (lines 100–104):
only when memory is enabled and `parseMessage` produced a nonempty session
key is `ensureSession` consulted. -/
def resolveSession (memoryEnabled : Bool) (sessions : List (String × String))
    (created : Option String) (data : String) : String × List (String × String) :=
  let parsed := parseMessage data
  if memoryEnabled && parsed.1 != "" then ensureSession sessions created parsed.1
  else ("", sessions)

/-- How many stored mappings carry a given user session key. -/
def countKey (sessions : List (String × String)) (k : String) : Nat :=
  (sessions.filter (fun p => p.1 == k)).length

/-- C3 counterexample: the inbound JSON field the handler reads is
`session_id`, not `session`.  The claim's payload
`{"session":"u1","content":"hi"}` therefore yields an empty session key, and
with memory enabled no session mapping is created at all — not one mapping. -/
theorem session_key_counterexample :
    resolveSession true [] (some "srv-1")
        "\x7b\"session\":\"u1\",\"content\":\"hi\"\x7d" = ("", []) ∧
      parseMessage "\x7b\"session\":\"u1\",\"content\":\"hi\"\x7d" = ("", "hi") := by
  decide

theorem lookup_append_none (k : String) (l l2 : List (String × String))
    (h : l.lookup k = none) : (l ++ l2).lookup k = l2.lookup k := by
  induction l with
  | nil => simp
  | cons p t ih =>
    obtain ⟨a, b⟩ := p
    simp only [List.lookup] at h ⊢
    cases hk : k == a with
    | true => rw [hk] at h; simp at h
    | false =>
      rw [hk] at h
      simp only [List.cons_append, List.lookup, hk]
      exact ih h

theorem countKey_zero_of_lookup_none (k : String) (l : List (String × String))
    (h : l.lookup k = none) : countKey l k = 0 := by
  induction l with
  | nil => rfl
  | cons p t ih =>
    obtain ⟨a, b⟩ := p
    simp only [List.lookup] at h
    cases hk : k == a with
    | true => rw [hk] at h; simp at h
    | false =>
      rw [hk] at h
      have hak : (a == k) = false := by
        rw [beq_eq_false_iff_ne] at hk ⊢
        exact fun hh => hk hh.symm
      simp only [countKey, List.filter_cons, hak]
      exact ih h

/-- C3 (amended): with memory enabled, the payload
`{"session_id":"u1","content":"hi"}` creates exactly one session mapping for
key `"u1"` the first time that key is seen (delegating creation to the
platform), and a second message with the same key reuses the stored platform
session id without creating anything. -/
theorem session_mapping_amended (sessions : List (String × String)) (srv : String)
    (created2 : Option String) (h : sessions.lookup "u1" = none) :
    resolveSession true sessions (some srv)
        "\x7b\"session_id\":\"u1\",\"content\":\"hi\"\x7d" =
      (srv, sessions ++ [("u1", srv)]) ∧
    countKey (sessions ++ [("u1", srv)]) "u1" = 1 ∧
    resolveSession true (sessions ++ [("u1", srv)]) created2
        "\x7b\"session_id\":\"u1\",\"content\":\"hi\"\x7d" =
      (srv, sessions ++ [("u1", srv)]) := by
  have hp : parseMessage "\x7b\"session_id\":\"u1\",\"content\":\"hi\"\x7d" =
      ("u1", "hi") := by decide
  refine ⟨?_, ?_, ?_⟩
  · unfold resolveSession
    rw [hp]
    simp only [Bool.and_self, if_pos]
    unfold ensureSession
    rw [h]
    simp
  · unfold countKey
    rw [List.filter_append, List.length_append]
    have h0 : countKey sessions "u1" = 0 := countKey_zero_of_lookup_none _ _ h
    unfold countKey at h0
    rw [h0]
    simp
  · unfold resolveSession
    rw [hp]
    simp only [Bool.and_self, if_pos]
    unfold ensureSession
    rw [lookup_append_none _ _ _ h]
    simp [List.lookup]

/-- Witness for the amended C3 theorem starting from an empty session store. -/
theorem session_mapping_amended_witness :
    resolveSession true [] (some "srv-1")
        "\x7b\"session_id\":\"u1\",\"content\":\"hi\"\x7d" =
      ("srv-1", [("u1", "srv-1")]) ∧
    countKey [("u1", "srv-1")] "u1" = 1 ∧
    resolveSession true [("u1", "srv-1")] none
        "\x7b\"session_id\":\"u1\",\"content\":\"hi\"\x7d" =
      ("srv-1", [("u1", "srv-1")]) := by
  have := session_mapping_amended [] "srv-1" none (by decide)
  simpa using this

/-! ### The bounded tool-calling loop (`MessageHandler.Handle`, handler.go 140–274)

The LLM completion (`agent.Complete`) and the tool execution
(`executeToolCall`, i.e. `mcp.CallTool`) are external collaborators, passed
in as functions; the completion is a function of the accumulated message
list, mirroring that each request carries the conversation so far. -/

structure ToolCall where
  id : String
  name : String
  arguments : String

structure Message where
  role : String
  content : String := ""
  toolCallID : String := ""
  toolCalls : List ToolCall := []

structure Completion where
  content : String := ""
  model : String := ""
  toolCalls : List ToolCall := []
  totalTokens : Int := 0
  finishReason : String := ""

/-- The fixed iteration bound of handler.go line 18. -/
def maxToolIterations : Nat := 10

/-- The structured error payload a failed tool call feeds back to the model,
built by the `fmt.Sprintf` at handler.go line 240: a one-field JSON object
whose `error` member is the failure text. -/
def errorPayload (e : String) : String :=
  "\x7b\"error\": \"" ++ e ++ "\"\x7d"

/-- The tool-result message appended per executed call (lines 222–264): on
success the tool output, on failure the structured error payload — the
failure never aborts the event. -/
def toolResultMessage (exec : ToolCall → Except String String) (call : ToolCall) :
    Message :=
  { role := "tool", toolCallID := call.id,
    content := match exec call with
      | Except.ok r => r
      | Except.error e => errorPayload e }

/-- The assistant message carrying the model's tool requests (lines 204–208). -/
def assistantToolMessage (calls : List ToolCall) : Message :=
  { role := "assistant", toolCalls := calls }

/-- Outcome of the loop: the final completion (`nil` only if no iteration
ran), the accumulated conversation, the number of completion calls
performed, and whether a completion failure aborted the event. -/
structure LoopResult where
  resp : Option Completion
  msgs : List Message
  calls : Nat
  aborted : Bool

/-- Embeds the `for i := 0; i < maxToolIterations; i++` loop of `Handle`:
request a completion (a failure returns immediately), stop when it requests
no tool calls, otherwise append the assistant message and one tool-result
message per call, in order, and loop.  On exhausting the bound the last
completion received stands. -/
def toolLoop (complete : List Message → Except String Completion)
    (exec : ToolCall → Except String String) :
    Nat → List Message → Option Completion → Nat → LoopResult
  | 0, msgs, last, calls => ⟨last, msgs, calls, false⟩
  | Nat.succ fuel, msgs, _, calls =>
    match complete msgs with
    | Except.error _ => ⟨none, msgs, calls + 1, true⟩
    | Except.ok resp =>
      if resp.toolCalls.isEmpty then ⟨some resp, msgs, calls + 1, false⟩
      else toolLoop complete exec fuel
        (msgs ++ assistantToolMessage resp.toolCalls ::
          resp.toolCalls.map (toolResultMessage exec))
        (some resp) (calls + 1)

/-- The loop as `Handle` runs it: full bound, empty last response, zero calls. -/
def handleToolLoop (complete : List Message → Except String Completion)
    (exec : ToolCall → Except String String) (msgs0 : List Message) : LoopResult :=
  toolLoop complete exec maxToolIterations msgs0 none 0

/-- One iteration's growth of the conversation when the completion `f`
requested tool calls. -/
def stepMsgs (f : List Message → Completion) (exec : ToolCall → Except String String)
    (msgs : List Message) : List Message :=
  msgs ++ assistantToolMessage (f msgs).toolCalls ::
    (f msgs).toolCalls.map (toolResultMessage exec)

/-- The conversation after `n` tool iterations. -/
def iterMsgs (f : List Message → Completion) (exec : ToolCall → Except String String) :
    Nat → List Message → List Message
  | 0, msgs => msgs
  | Nat.succ n, msgs => iterMsgs f exec n (stepMsgs f exec msgs)

theorem toolLoop_always_tools (f : List Message → Completion)
    (exec : ToolCall → Except String String) (h : ∀ m, (f m).toolCalls ≠ []) :
    ∀ (fuel : Nat) (msgs : List Message) (last : Option Completion) (calls : Nat),
      0 < fuel →
      toolLoop (fun m => Except.ok (f m)) exec fuel msgs last calls =
        ⟨some (f (iterMsgs f exec (fuel - 1) msgs)), iterMsgs f exec fuel msgs,
          calls + fuel, false⟩ := by
  intro fuel
  induction fuel with
  | zero => intro msgs last calls hpos; exact absurd hpos (by simp)
  | succ n ih =>
    intro msgs last calls _
    have hne : ((f msgs).toolCalls.isEmpty) = false := by
      cases hcase : (f msgs).toolCalls with
      | nil => exact absurd hcase (h msgs)
      | cons a t => simp [List.isEmpty]
    rw [toolLoop]
    simp only [hne, Bool.false_eq_true, if_false]
    cases n with
    | zero =>
      rw [toolLoop]
      show LoopResult.mk (some (f msgs)) (stepMsgs f exec msgs) (calls + 1) false =
        LoopResult.mk (some (f (iterMsgs f exec 0 msgs))) (iterMsgs f exec 1 msgs)
          (calls + 1) false
      rfl
    | succ m =>
      have := ih (stepMsgs f exec msgs) (some (f msgs)) (calls + 1) (by simp)
      show toolLoop (fun m => Except.ok (f m)) exec (m + 1) (stepMsgs f exec msgs)
          (some (f msgs)) (calls + 1) = _
      rw [this]
      show LoopResult.mk (some (f (iterMsgs f exec m (stepMsgs f exec msgs))))
          (iterMsgs f exec (m + 1) (stepMsgs f exec msgs)) (calls + 1 + (m + 1)) false =
        LoopResult.mk (some (f (iterMsgs f exec (m + 1) msgs)))
          (iterMsgs f exec (m + 2) msgs) (calls + (m + 2)) false
      rw [show iterMsgs f exec (m + 1) msgs = iterMsgs f exec m (stepMsgs f exec msgs) from rfl,
        show iterMsgs f exec (m + 2) msgs = iterMsgs f exec (m + 1) (stepMsgs f exec msgs) from rfl]
      congr 1
      omega

/-- C1: against a completion that requests further tool calls every time,
`Handle` performs exactly `maxToolIterations` (= 10) completion calls — in
particular at most 10 — then stops with the last completion received as the
final response, without aborting. -/
theorem handle_loop_bounded (f : List Message → Completion)
    (exec : ToolCall → Except String String) (msgs0 : List Message)
    (h : ∀ m, (f m).toolCalls ≠ []) :
    handleToolLoop (fun m => Except.ok (f m)) exec msgs0 =
      ⟨some (f (iterMsgs f exec 9 msgs0)), iterMsgs f exec 10 msgs0, 10, false⟩ ∧
      (handleToolLoop (fun m => Except.ok (f m)) exec msgs0).calls ≤ maxToolIterations := by
  have := toolLoop_always_tools f exec h maxToolIterations msgs0 none 0 (by decide)
  unfold handleToolLoop
  rw [this]
  refine ⟨rfl, ?_⟩
  show 0 + maxToolIterations ≤ maxToolIterations
  simp

/-- A completion used by concrete witnesses: it always asks for one tool call. -/
def wCompleteAlways : List Message → Completion :=
  fun _ => { content := "more", toolCalls := [⟨"1", "t", "\x7b\x7d"⟩] }

/-- Witness for C1 at a concrete always-tool-calling completion. -/
theorem handle_loop_bounded_witness :
    handleToolLoop (fun m => Except.ok (wCompleteAlways m)) (fun _ => Except.ok "r") [] =
      ⟨some (wCompleteAlways (iterMsgs wCompleteAlways (fun _ => Except.ok "r") 9 [])),
        iterMsgs wCompleteAlways (fun _ => Except.ok "r") 10 [], 10, false⟩ ∧
      (handleToolLoop (fun m => Except.ok (wCompleteAlways m)) (fun _ => Except.ok "r") []).calls ≤
        maxToolIterations :=
  handle_loop_bounded wCompleteAlways (fun _ => Except.ok "r") []
    (by intro m; simp [wCompleteAlways])

theorem toolLoop_ok_succ (f : List Message → Completion)
    (exec : ToolCall → Except String String) (fuel : Nat) (msgs : List Message)
    (last : Option Completion) (calls : Nat) :
    toolLoop (fun m => Except.ok (f m)) exec (Nat.succ fuel) msgs last calls =
      (if (f msgs).toolCalls.isEmpty then
        ⟨some (f msgs), msgs, calls + 1, false⟩
       else toolLoop (fun m => Except.ok (f m)) exec fuel
         (msgs ++ assistantToolMessage (f msgs).toolCalls ::
           (f msgs).toolCalls.map (toolResultMessage exec))
         (some (f msgs)) (calls + 1)) := rfl

theorem toolLoop_failing_exec (f : List Message → Completion) (errOf : ToolCall → String) :
    ∀ (fuel : Nat) (msgs : List Message) (last : Option Completion) (calls : Nat),
      (hlast : fuel = 0 → ∃ r, last = some r) →
      (hmsgs : ∀ m ∈ msgs, m.role = "tool" →
        ∃ c, m.toolCallID = c.id ∧ m.content = errorPayload (errOf c)) →
      (toolLoop (fun m => Except.ok (f m)) (fun c => Except.error (errOf c))
          fuel msgs last calls).aborted = false ∧
      (∃ r, (toolLoop (fun m => Except.ok (f m)) (fun c => Except.error (errOf c))
          fuel msgs last calls).resp = some r) ∧
      (toolLoop (fun m => Except.ok (f m)) (fun c => Except.error (errOf c))
          fuel msgs last calls).calls ≤ calls + fuel ∧
      ∀ m ∈ (toolLoop (fun m => Except.ok (f m)) (fun c => Except.error (errOf c))
          fuel msgs last calls).msgs, m.role = "tool" →
        ∃ c, m.toolCallID = c.id ∧ m.content = errorPayload (errOf c) := by
  intro fuel
  induction fuel with
  | zero =>
    intro msgs last calls hlast hmsgs
    rw [toolLoop]
    exact ⟨rfl, hlast rfl, Nat.le_refl _, hmsgs⟩
  | succ n ih =>
    intro msgs last calls _ hmsgs
    rw [toolLoop_ok_succ]
    cases hempty : (f msgs).toolCalls.isEmpty with
    | true =>
      rw [if_pos rfl]
      refine ⟨rfl, ⟨f msgs, rfl⟩, ?_, hmsgs⟩
      show calls + 1 ≤ calls + (n + 1)
      omega
    | false =>
      rw [if_neg (by simp)]
      have hmsgs2 : ∀ m ∈ msgs ++ assistantToolMessage (f msgs).toolCalls ::
          (f msgs).toolCalls.map (toolResultMessage (fun c => Except.error (errOf c))),
          m.role = "tool" →
          ∃ c, m.toolCallID = c.id ∧ m.content = errorPayload (errOf c) := by
        intro m hm hrole
        rcases List.mem_append.mp hm with hm | hm
        · exact hmsgs m hm hrole
        · rcases List.mem_cons.mp hm with rfl | hm
          · exact absurd hrole (by simp [assistantToolMessage])
          · obtain ⟨c, _, rfl⟩ := List.mem_map.mp hm
            exact ⟨c, rfl, rfl⟩
      have := ih (msgs ++ assistantToolMessage (f msgs).toolCalls ::
          (f msgs).toolCalls.map (toolResultMessage (fun c => Except.error (errOf c))))
        (some (f msgs)) (calls + 1) (fun _ => ⟨f msgs, rfl⟩) hmsgs2
      refine ⟨this.1, this.2.1, ?_, this.2.2.2⟩
      calc (toolLoop _ _ n _ _ (calls + 1)).calls ≤ calls + 1 + n := this.2.2.1
        _ = calls + (n + 1) := by omega

/-- C7: when every tool call fails, the event still reaches a final textual
response within the iteration bound: the loop never aborts, its completion
count stays within the bound, and every tool-role message fed back to the
model carries the structured error payload of its call — starting from a
conversation with no tool messages (as `Handle` builds it). -/
theorem handle_failing_tools (f : List Message → Completion)
    (errOf : ToolCall → String) (msgs0 : List Message)
    (h0 : ∀ m ∈ msgs0, m.role ≠ "tool") :
    (handleToolLoop (fun m => Except.ok (f m)) (fun c => Except.error (errOf c))
        msgs0).aborted = false ∧
    (∃ r, (handleToolLoop (fun m => Except.ok (f m)) (fun c => Except.error (errOf c))
        msgs0).resp = some r) ∧
    (handleToolLoop (fun m => Except.ok (f m)) (fun c => Except.error (errOf c))
        msgs0).calls ≤ maxToolIterations ∧
    ∀ m ∈ (handleToolLoop (fun m => Except.ok (f m)) (fun c => Except.error (errOf c))
        msgs0).msgs, m.role = "tool" →
      ∃ c, m.toolCallID = c.id ∧ m.content = errorPayload (errOf c) := by
  have := toolLoop_failing_exec f errOf maxToolIterations msgs0 none 0
    (by intro h; exact absurd h (by decide))
    (by intro m hm hrole; exact absurd hrole (h0 m hm))
  unfold handleToolLoop
  refine ⟨this.1, this.2.1, ?_, this.2.2.2⟩
  have h2 := this.2.2.1
  omega

/-- Witness for C7: a completion that always requests one tool call and an
executor that always fails still produce a response, within bound, with
error payloads in every tool message. -/
theorem handle_failing_tools_witness :
    (handleToolLoop (fun m => Except.ok (wCompleteAlways m))
        (fun c => Except.error ("boom " ++ c.name)) []).aborted = false ∧
    (∃ r, (handleToolLoop (fun m => Except.ok (wCompleteAlways m))
        (fun c => Except.error ("boom " ++ c.name)) []).resp = some r) ∧
    (handleToolLoop (fun m => Except.ok (wCompleteAlways m))
        (fun c => Except.error ("boom " ++ c.name)) []).calls ≤ maxToolIterations ∧
    ∀ m ∈ (handleToolLoop (fun m => Except.ok (wCompleteAlways m))
        (fun c => Except.error ("boom " ++ c.name)) []).msgs, m.role = "tool" →
      ∃ c : ToolCall, m.toolCallID = c.id ∧
        m.content = errorPayload ("boom " ++ c.name) :=
  handle_failing_tools wCompleteAlways (fun c => "boom " ++ c.name) []
    (by intro m hm; exact absurd hm (List.not_mem_nil m))

/-! ### Result dispatch (`MessageHandler.Handle`, handler.go 291–359)

The final completion is serialized as the `Response` struct; each target
topic is published either through the plugin manager (which receives the
bare content string) or through the platform SDK (which receives the
serialized bytes); a reply subject additionally receives the serialized
bytes.  `handleOutputs` returns the list of (destination, payload) pairs the
handler sends. -/

/-- Embeds the `Response` struct (handler.go 519–526). -/
structure Response where
  content : String
  model : String
  sourceTopic : String
  tokens : Int
  finishReason : String

/-- One hexadecimal digit (lowercase, as Go emits in `\u00xx`). -/
def hexDigit (n : Nat) : Char :=
  if n < 10 then Char.ofNat (48 + n) else Char.ofNat (87 + n)

/-- Go `encoding/json` string escaping (with its default HTML escaping). -/
def escapeJSONChar (c : Char) : List Char :=
  if c == '"' then ['\\', '"']
  else if c == '\\' then ['\\', '\\']
  else if c == '\n' then ['\\', 'n']
  else if c == '\r' then ['\\', 'r']
  else if c == '\t' then ['\\', 't']
  else if c == '<' then ['\\', 'u', '0', '0', '3', 'c']
  else if c == '>' then ['\\', 'u', '0', '0', '3', 'e']
  else if c == '&' then ['\\', 'u', '0', '0', '2', '6']
  else if c.toNat < 32 then
    ['\\', 'u', '0', '0', hexDigit (c.toNat / 16), hexDigit (c.toNat % 16)]
  else [c]

def quoteJSON (s : String) : String :=
  "\"" ++ String.mk (s.toList.map escapeJSONChar).flatten ++ "\""

/-- `json.Marshal` of a `Response`: the struct's fields in declaration order
under their JSON tags. -/
def marshalResponse (r : Response) : String :=
  "\x7b\"content\":" ++ quoteJSON r.content ++
    ",\"model\":" ++ quoteJSON r.model ++
    ",\"source_topic\":" ++ quoteJSON r.sourceTopic ++
    ",\"tokens\":" ++ toString r.tokens ++
    ",\"finish_reason\":" ++ quoteJSON r.finishReason ++ "\x7d"

/-- The dispatch of `Handle` (lines 306–359): route-aware target selection;
a plugin destination gets `resp.Content`, a platform topic gets the
serialized `Response`; a nonempty reply subject also gets the serialized
`Response`. -/
def handleOutputs (t : TopicsConfig) (isPlugin : String → Bool) (resp : Response)
    (reply : String) : List (String × String) :=
  (targetTopics t resp.content).map
      (fun topic => (topic, if isPlugin topic then resp.content else marshalResponse resp)) ++
    (if reply != "" then [(reply, marshalResponse resp)] else [])

/-- C9 counterexample: with the default publish set `["p1"]` where `p1` is a
loaded plugin, the dispatched payload is the bare content string `"x"`, not
the serialized `{content, model, source_topic, tokens, finish_reason}`
object — adapter and platform destinations are not treated interchangeably
at the payload level. -/
theorem dispatch_payload_counterexample :
    handleOutputs ⟨["in"], ["p1"], []⟩ (fun t => t == "p1")
        ⟨"x", "m", "in", 5, "stop"⟩ "" = [("p1", "x")] ∧
      "x" ≠ marshalResponse ⟨"x", "m", "in", 5, "stop"⟩ := by
  constructor
  · decide
  · decide

/-- C9 (amended): the dispatched payloads, characterised per destination
kind.  A target topic that is a loaded plugin receives exactly the bare
content string; a target topic that is not a plugin receives exactly the
serialized `Response` object; a nonempty reply subject receives the
serialized `Response` even when its name is a loaded plugin; and nothing
else is dispatched: every dispatched pair is a target topic carrying the
payload its kind dictates, or the reply pair. -/
theorem dispatch_payload_shapes (t : TopicsConfig) (isPlugin : String → Bool)
    (resp : Response) (reply : String) :
    (∀ d ∈ targetTopics t resp.content, isPlugin d = true →
        (d, resp.content) ∈ handleOutputs t isPlugin resp reply) ∧
      (∀ d ∈ targetTopics t resp.content, isPlugin d = false →
        (d, marshalResponse resp) ∈ handleOutputs t isPlugin resp reply) ∧
      (reply ≠ "" →
        (reply, marshalResponse resp) ∈ handleOutputs t isPlugin resp reply) ∧
      (∀ d payload, (d, payload) ∈ handleOutputs t isPlugin resp reply →
        (d ∈ targetTopics t resp.content ∧
            payload = (if isPlugin d = true then resp.content else marshalResponse resp)) ∨
          (reply ≠ "" ∧ d = reply ∧ payload = marshalResponse resp)) := by
  refine ⟨?_, ?_, ?_, ?_⟩
  · intro d hd hp
    unfold handleOutputs
    apply List.mem_append_left
    apply List.mem_map.mpr
    exact ⟨d, hd, by rw [if_pos hp]⟩
  · intro d hd hp
    unfold handleOutputs
    apply List.mem_append_left
    apply List.mem_map.mpr
    exact ⟨d, hd, by rw [if_neg (by simp [hp])]⟩
  · intro hr
    unfold handleOutputs
    apply List.mem_append_right
    rw [if_pos (by simpa using hr)]
    exact List.mem_singleton.mpr rfl
  · intro d payload hmem
    unfold handleOutputs at hmem
    rcases List.mem_append.mp hmem with hm | hm
    · obtain ⟨topic, htop, heq⟩ := List.mem_map.mp hm
      injection heq with h1 h2
      subst h1
      subst h2
      exact Or.inl ⟨htop, rfl⟩
    · by_cases hr : reply != ""
      · rw [if_pos hr] at hm
        rcases List.mem_singleton.mp hm with heq
        injection heq with h1 h2
        subst h1
        subst h2
        exact Or.inr ⟨by simpa using hr, rfl, rfl⟩
      · rw [if_neg hr] at hm
        exact absurd hm (List.not_mem_nil _)

/-- Witness for the amended C9 theorem: with publish set `["p1", "out"]`
where `p1` is a loaded plugin and the reply subject also named `p1`, the
plugin target receives the bare content `"x"`, the platform target receives
the serialized `Response`, and the reply subject receives the serialized
`Response` despite being plugin-named. -/
theorem dispatch_payload_shapes_witness :
    ("p1", "x") ∈ handleOutputs ⟨["in"], ["p1", "out"], []⟩ (fun d => d == "p1")
        ⟨"x", "m", "in", 5, "stop"⟩ "p1" ∧
      ("out", marshalResponse ⟨"x", "m", "in", 5, "stop"⟩) ∈
        handleOutputs ⟨["in"], ["p1", "out"], []⟩ (fun d => d == "p1")
          ⟨"x", "m", "in", 5, "stop"⟩ "p1" ∧
      ("p1", marshalResponse ⟨"x", "m", "in", 5, "stop"⟩) ∈
        handleOutputs ⟨["in"], ["p1", "out"], []⟩ (fun d => d == "p1")
          ⟨"x", "m", "in", 5, "stop"⟩ "p1" :=
  ⟨(dispatch_payload_shapes ⟨["in"], ["p1", "out"], []⟩ (fun d => d == "p1")
      ⟨"x", "m", "in", 5, "stop"⟩ "p1").1 "p1" (by decide) (by decide),
    (dispatch_payload_shapes ⟨["in"], ["p1", "out"], []⟩ (fun d => d == "p1")
      ⟨"x", "m", "in", 5, "stop"⟩ "p1").2.1 "out" (by decide) (by decide),
    (dispatch_payload_shapes ⟨["in"], ["p1", "out"], []⟩ (fun d => d == "p1")
      ⟨"x", "m", "in", 5, "stop"⟩ "p1").2.2.1 (by decide)⟩

/-! ### Plugin loading (`Manager.LoadPlugin` src/unnamed/part_011, `Runner.Run` 1092–1102)

The registry (`Manager.plugins`, name → pluginState) is an association list
keyed by plugin name.  The two external effects of `LoadPlugin` are
abstracted as predicates on the definition: `sandboxOk` is `NewSandbox`
(which closes its partially built Lua state itself on failure) and
`scriptOk` is `sb.DoFile` (after which `LoadPlugin` closes the sandbox on
failure).  The registry is mutated only after both succeed. -/

/-- Embeds `config.PluginConfig`. -/
structure PluginConfig where
  name : String
  file : String
  restrict : List Chars := []
deriving DecidableEq

/-- Outcome of one `LoadPlugin` call: the registry afterwards, the error if
any, and whether the (partial) sandbox of this call was closed. -/
structure LoadOut where
  plugins : List (String × PluginConfig)
  err : Option String
  sandboxClosed : Bool

/-- Go map assignment `m.plugins[name] = state`. -/
def insertPlugin (plugins : List (String × PluginConfig)) (k : String)
    (v : PluginConfig) : List (String × PluginConfig) :=
  plugins.filter (fun p => p.1 != k) ++ [(k, v)]

/-- Embeds `Manager.LoadPlugin`: sandbox construction failure and script
execution failure both return an error, close the sandbox, and leave the
registry untouched; success indexes the plugin by name. -/
def loadPlugin (plugins : List (String × PluginConfig)) (cfg : PluginConfig)
    (sandboxOk scriptOk : PluginConfig → Bool) : LoadOut :=
  if !(sandboxOk cfg) then
    ⟨plugins, some ("failed to create sandbox for plugin " ++ cfg.name), true⟩
  else if !(scriptOk cfg) then
    ⟨plugins, some ("failed to load plugin " ++ cfg.name ++ " from " ++ cfg.file), true⟩
  else
    ⟨insertPlugin plugins cfg.name cfg, none, false⟩

/-- Embeds `Manager.HasPlugin` (and its alias `IsPlugin`). -/
def hasPlugin (plugins : List (String × PluginConfig)) (name : String) : Bool :=
  (plugins.lookup name).isSome

/-- Embeds the plugin-loading loop of `Runner.Run` (lines 1095–1099): each
configured plugin is loaded in order and the FIRST failure makes `Run`
return the wrapped error — the remaining definitions are not loaded and the
subscription loop below it never runs. -/
def runnerLoadPlugins (plugins : List (String × PluginConfig))
    (cfgs : List PluginConfig) (sandboxOk scriptOk : PluginConfig → Bool) :
    Except String (List (String × PluginConfig)) :=
  match cfgs with
  | [] => Except.ok plugins
  | cfg :: rest =>
    match (loadPlugin plugins cfg sandboxOk scriptOk).err with
    | some e => Except.error ("failed to load plugin " ++ cfg.name ++ ": " ++ e)
    | none => runnerLoadPlugins (loadPlugin plugins cfg sandboxOk scriptOk).plugins
        rest sandboxOk scriptOk

/-- C8 counterexample: one failing adapter does not leave the rest running —
`Runner.Run` aborts startup on the first `LoadPlugin` error, so the
perfectly loadable second adapter never starts.  (`scriptOk` fails exactly
for the plugin named "bad".) -/
theorem plugin_load_abort_counterexample :
    runnerLoadPlugins [] [⟨"bad", "bad.lua", []⟩, ⟨"good", "good.lua", []⟩]
        (fun _ => true) (fun c => c.name != "bad") =
      Except.error
        "failed to load plugin bad: failed to load plugin bad from bad.lua" ∧
      (loadPlugin [] ⟨"good", "good.lua", []⟩ (fun _ => true)
        (fun c => c.name != "bad")).err = none := by
  constructor
  · rfl
  · rfl

/-- C8 (amended): a failing adapter load produces a LoadError and is not
indexed (the registry is unchanged), but startup does not continue:
`Runner.Run`'s loading loop returns the wrapped error, so the remaining
adapters and the platform subscriptions do not start. -/
theorem plugin_load_failure_aborts (plugins : List (String × PluginConfig))
    (cfg : PluginConfig) (rest : List PluginConfig)
    (sandboxOk scriptOk : PluginConfig → Bool)
    (h : sandboxOk cfg = false ∨ scriptOk cfg = false) :
    (∃ e, (loadPlugin plugins cfg sandboxOk scriptOk).err = some e) ∧
      (loadPlugin plugins cfg sandboxOk scriptOk).plugins = plugins ∧
      (∃ e, runnerLoadPlugins plugins (cfg :: rest) sandboxOk scriptOk =
        Except.error e) := by
  have herr : ∃ e, (loadPlugin plugins cfg sandboxOk scriptOk).err = some e := by
    unfold loadPlugin
    by_cases hs : sandboxOk cfg = false
    · rw [if_pos (by simp [hs])]
      exact ⟨_, rfl⟩
    · have hsc : scriptOk cfg = false := by
        rcases h with h | h
        · exact absurd h hs
        · exact h
      rw [if_neg (by simp [Bool.not_eq_false] at hs; simp [hs]), if_pos (by simp [hsc])]
      exact ⟨_, rfl⟩
  have hst : (loadPlugin plugins cfg sandboxOk scriptOk).plugins = plugins := by
    unfold loadPlugin
    by_cases hs : sandboxOk cfg = false
    · rw [if_pos (by simp [hs])]
    · have hsc : scriptOk cfg = false := by
        rcases h with h | h
        · exact absurd h hs
        · exact h
      rw [if_neg (by simp [Bool.not_eq_false] at hs; simp [hs]), if_pos (by simp [hsc])]
  refine ⟨herr, hst, ?_⟩
  obtain ⟨e, he⟩ := herr
  refine ⟨"failed to load plugin " ++ cfg.name ++ ": " ++ e, ?_⟩
  unfold runnerLoadPlugins
  split
  · rename_i e2 he2
    rw [he] at he2
    injection he2 with he3
    rw [he3]
  · rename_i he2
    rw [he] at he2
    exact absurd he2 (by simp)

/-- Witness for the amended C8 theorem at a concrete failing definition. -/
theorem plugin_load_failure_aborts_witness :
    (∃ e, (loadPlugin [] ⟨"bad", "bad.lua", []⟩ (fun _ => true)
        (fun c => c.name != "bad")).err = some e) ∧
      (loadPlugin [] ⟨"bad", "bad.lua", []⟩ (fun _ => true)
        (fun c => c.name != "bad")).plugins = [] ∧
      (∃ e, runnerLoadPlugins [] [⟨"bad", "bad.lua", []⟩, ⟨"good", "good.lua", []⟩]
        (fun _ => true) (fun c => c.name != "bad") = Except.error e) :=
  plugin_load_failure_aborts [] ⟨"bad", "bad.lua", []⟩ [⟨"good", "good.lua", []⟩]
    (fun _ => true) (fun c => c.name != "bad") (Or.inr (by decide))

/-- C10 counterexample: when a plugin named "p" is already loaded and a
second `LoadPlugin` for the same name fails, the registry is unchanged — so
`HasPlugin("p")` still returns true, contradicting the claim that the failed
name is not indexed. -/
theorem loadPlugin_reload_counterexample :
    (loadPlugin [("p", ⟨"p", "p.lua", []⟩)] ⟨"p", "p2.lua", []⟩
        (fun _ => true) (fun _ => false)).err.isSome = true ∧
      (loadPlugin [("p", ⟨"p", "p.lua", []⟩)] ⟨"p", "p2.lua", []⟩
        (fun _ => true) (fun _ => false)).plugins = [("p", ⟨"p", "p.lua", []⟩)] ∧
      hasPlugin (loadPlugin [("p", ⟨"p", "p.lua", []⟩)] ⟨"p", "p2.lua", []⟩
        (fun _ => true) (fun _ => false)).plugins "p" = true := by
  refine ⟨rfl, rfl, rfl⟩

/-- C10 (amended): a failing `LoadPlugin` leaves the registry exactly as it
was (previously loaded plugins and their states untouched), closes the
sandbox it built, and — provided the name was not already loaded — leaves
the failed name unindexed (`HasPlugin`/`IsPlugin` false). -/
theorem loadPlugin_failure_state (plugins : List (String × PluginConfig))
    (cfg : PluginConfig) (sandboxOk scriptOk : PluginConfig → Bool)
    (h : sandboxOk cfg = false ∨ scriptOk cfg = false) :
    (∃ e, (loadPlugin plugins cfg sandboxOk scriptOk).err = some e) ∧
      (loadPlugin plugins cfg sandboxOk scriptOk).plugins = plugins ∧
      (loadPlugin plugins cfg sandboxOk scriptOk).sandboxClosed = true ∧
      (hasPlugin plugins cfg.name = false →
        hasPlugin (loadPlugin plugins cfg sandboxOk scriptOk).plugins cfg.name =
          false) := by
  have hs3 : (loadPlugin plugins cfg sandboxOk scriptOk).err.isSome = true ∧
      (loadPlugin plugins cfg sandboxOk scriptOk).plugins = plugins ∧
      (loadPlugin plugins cfg sandboxOk scriptOk).sandboxClosed = true := by
    unfold loadPlugin
    by_cases hs : sandboxOk cfg = false
    · rw [if_pos (by simp [hs])]
      exact ⟨rfl, rfl, rfl⟩
    · have hsc : scriptOk cfg = false := by
        rcases h with h | h
        · exact absurd h hs
        · exact h
      rw [if_neg (by simp [Bool.not_eq_false] at hs; simp [hs]), if_pos (by simp [hsc])]
      exact ⟨rfl, rfl, rfl⟩
  refine ⟨?_, hs3.2.1, hs3.2.2, ?_⟩
  · rcases hopt : (loadPlugin plugins cfg sandboxOk scriptOk).err with _ | e
    · rw [hopt] at hs3
      simp at hs3
    · exact ⟨e, rfl⟩
  · intro hnone
    rw [hs3.2.1]
    exact hnone

/-- Witness for the amended C10 theorem at a concrete failing load. -/
theorem loadPlugin_failure_state_witness :
    (∃ e, (loadPlugin [("q", ⟨"q", "q.lua", []⟩)] ⟨"p", "p.lua", []⟩
        (fun _ => false) (fun _ => true)).err = some e) ∧
      (loadPlugin [("q", ⟨"q", "q.lua", []⟩)] ⟨"p", "p.lua", []⟩
        (fun _ => false) (fun _ => true)).plugins = [("q", ⟨"q", "q.lua", []⟩)] ∧
      (loadPlugin [("q", ⟨"q", "q.lua", []⟩)] ⟨"p", "p.lua", []⟩
        (fun _ => false) (fun _ => true)).sandboxClosed = true ∧
      (hasPlugin [("q", ⟨"q", "q.lua", []⟩)] "p" = false →
        hasPlugin (loadPlugin [("q", ⟨"q", "q.lua", []⟩)] ⟨"p", "p.lua", []⟩
          (fun _ => false) (fun _ => true)).plugins "p" = false) :=
  loadPlugin_failure_state [("q", ⟨"q", "q.lua", []⟩)] ⟨"p", "p.lua", []⟩
    (fun _ => false) (fun _ => true) (Or.inl (by decide))
